import Mathlib

/-!
Verification of the DNS Sentinel module (`om_apex_mcp/tools/dns_sentinel.py`).

This file gives a shallow embedding of the pure decision logic of the DNS
Sentinel: TXT content normalization, record-name matching, the policy matcher
(`_check_record_policy`), the auto-heal safety classifier
(`_is_safe_to_auto_heal`), the heal applicator's `applied` outcome
(`_apply_heal_action`), the per-finding branch of the `dns_audit` orchestrator
loop, and the effect ordering of the `dns_approve` handler.

Python dicts are embedded as structures whose fields are the keys consulted by
the embedded functions; a key read with `dict.get(k)` (no default) becomes an
`Option` field, and a key read with `dict.get(k, d)` is accessed through
`Option.getD d` or through a structure default mirroring `d`.  External I/O
(Cloudflare and Supabase calls) is represented by oracle functions carried in
an environment record, and side effects of the approval handler are recorded
as an explicit effect trace.

String helpers reimplement the exact Python primitives used by the source
(`str.lower`/`str.upper` on ASCII, `in` substring test, `startswith`,
`str.replace`, `str.strip('"')`, `str.count('.')`) by structural recursion on
the character list so that all definitions evaluate inside the kernel.
-/

namespace DnsSentinel

/-! ## ASCII case mapping (Python `str.lower` / `str.upper` on ASCII input) -/

def lowerChar (c : Char) : Char :=
  if 65 ≤ c.toNat ∧ c.toNat ≤ 90 then Char.ofNat (c.toNat + 32) else c

def upperChar (c : Char) : Char :=
  if 97 ≤ c.toNat ∧ c.toNat ≤ 122 then Char.ofNat (c.toNat - 32) else c

def lowerStr (s : String) : String := ⟨s.data.map lowerChar⟩

def upperStr (s : String) : String := ⟨s.data.map upperChar⟩

/-! ## Python string primitives used by the source -/

/-- Python `sub in s` on character lists: some contiguous occurrence. -/
def containsL (pat : List Char) : List Char → Bool
  | [] => pat.isEmpty
  | c :: t => pat.isPrefixOf (c :: t) || containsL pat t

/-- Python `sub in s`. -/
def pyContains (sub s : String) : Bool := containsL sub.data s.data

/-- Python `s.startswith(pre)`. -/
def pyStartsWith (s pre : String) : Bool := pre.data.isPrefixOf s.data

/-- Left-to-right non-overlapping replacement, fuelled for structural
recursion (the fuel is the length of the subject list, which is enough
because each step consumes at least one character). -/
def replaceFuel (pat rep : List Char) : Nat → List Char → List Char
  | _, [] => []
  | 0, l => l
  | Nat.succ fuel, c :: t =>
    if pat.isPrefixOf (c :: t) then
      rep ++ replaceFuel pat rep fuel (t.drop (pat.length - 1))
    else
      c :: replaceFuel pat rep fuel t

/-- Python `s.replace(pat, rep)` for a non-empty pattern (the source only
replaces the constant pattern `"` `"` between TXT segments). -/
def pyReplace (s pat rep : String) : String :=
  if pat == "" then s else ⟨replaceFuel pat.data rep.data s.data.length s.data⟩

/-- Python `s.strip(chars)` for a one-character set, on lists: drop the
character from both ends. -/
def stripL (q : Char) (l : List Char) : List Char :=
  ((l.dropWhile (· == q)).reverse.dropWhile (· == q)).reverse

/-- Python `s.strip('"')`. -/
def pyStripQuotes (s : String) : String := ⟨stripL '"' s.data⟩

/-! ## Data model

Embeddings of the dict shapes consumed by `dns_sentinel.py`. -/

/-- A record prescribed by a heal action, and also the payload shape sent to
Cloudflare.  `type` is read with `.get("type")`/`.get("type","")`, hence an
`Option`; `id` mirrors the `"id"` key consulted by `dns_approve` for updates. -/
structure HealRecord where
  type : Option String := none
  name : String := ""
  content : String := ""
  ttl : Option Nat := none
  proxied : Option Bool := none
  id : Option String := none
deriving DecidableEq

/-- A policy's `heal_action` dict: the keys consulted are `action`
(read with `.get("action","")`), `record` and `records`. -/
structure HealAction where
  action : String := ""
  record : Option HealRecord := none
  records : Option (List HealRecord) := none
deriving DecidableEq

/-- A policy `rule` dict: every key is optional, and `matches_record` tests
presence with `"key" in rule`. -/
structure Rule where
  type : Option String := none
  name : Option String := none
  content : Option String := none
  content_contains : Option String := none
  content_startswith : Option String := none
  content_contains_any : Option (List String) := none
  proxied : Option Bool := none
deriving DecidableEq

/-- A live Cloudflare DNS record, as consulted by the matcher:
`record.get("type","")`, `record.get("name","")`, `record.get("content","")`
and `record.get("proxied")` (no default, hence `Option`). -/
structure DnsRecord where
  type : String := ""
  name : String := ""
  content : String := ""
  proxied : Option Bool := none
deriving DecidableEq

/-- The `expected` field of a finding: either the rule dict
(`record_required` / `record_value_match`) or the literal explanation string
(`record_forbidden`). -/
inductive Expected where
  | ofRule (r : Rule)
  | ofText (s : String)
deriving DecidableEq

/-- A finding dict.  `_check_record_policy` creates it without `domain`,
`run_id`, `healed` or `queued_for_approval`; the audit loop fills those in
(absence is modelled by the defaults `""`/`false`).  Domain-level findings
(`zone_not_found`, `cloudflare_error`) use the same shape with only
`domain`, `severity`, `type`, `description` and `auto_heal` set.
The Python key `type` is the field `ftype`. -/
structure Finding where
  policy_id : String := ""
  severity : String := "warning"
  ftype : String := ""
  description : String := ""
  expected : Option Expected := none
  actual : Option DnsRecord := none
  auto_heal : Bool := false
  heal_action : Option HealAction := none
  domain : String := ""
  run_id : String := ""
  healed : Bool := false
  queued_for_approval : Bool := false
deriving DecidableEq

/-- A row of `dns_policies`, restricted to the keys the matcher consults.
Defaults mirror the `.get` defaults at the use sites
(`policy.get("id","")`, `policy.get("rule_type","")`, `policy.get("rule",{})`,
`policy.get("severity","warning")`, `policy.get("auto_heal",False)`,
`policy.get("heal_action")`). -/
structure Policy where
  id : String := ""
  rule_type : String := ""
  rule : Rule := {}
  severity : String := "warning"
  auto_heal : Bool := false
  heal_action : Option HealAction := none
deriving DecidableEq

/-- `AUDIT_ONLY_DOMAINS = {"theomgroup.ai"}` — domains where auto-heal is
disabled (Tier 5). -/
def AUDIT_ONLY_DOMAINS : List String := ["theomgroup.ai"]

/-! ## `_normalize_content` and `_rec_name_matches_rule` -/

/-- `_normalize_content`: strip Cloudflare's quoted/segmented long-TXT
encoding.  `content.replace('" "', "").strip('"')` when the record is a TXT
record whose content starts with a double quote. -/
def _normalize_content (record : DnsRecord) : String :=
  if upperStr record.type == "TXT" && pyStartsWith record.content "\"" then
    pyStripQuotes (pyReplace record.content "\" \"" "")
  else
    record.content

/-- `_rec_name_matches_rule`: match a live record name against a rule name,
case-insensitively; rule name `"@"` matches `"@"` or any name with at most
one dot, any other rule name matches by substring containment. -/
def _rec_name_matches_rule (rec_name rule_name : String) : Bool :=
  let rn := lowerStr rec_name
  let rn_rule := lowerStr rule_name
  if rn_rule == "@" then
    rn == "@" || rn.data.count '.' ≤ 1
  else
    pyContains rn_rule rn

/-- The content/proxied part of `matches_record` — everything after the type
and name checks, applied to the normalized content (the "value predicate" of
the specification). -/
def valuePredicate (record : DnsRecord) (rule : Rule) : Bool :=
  let content := _normalize_content record
  (match rule.content with
   | some v => content == v
   | none => true) &&
  (match rule.content_contains with
   | some v => pyContains v content
   | none => true) &&
  (match rule.content_startswith with
   | some v => pyStartsWith content v
   | none => true) &&
  (match rule.content_contains_any with
   | some vs => vs.any (fun s => pyContains s content)
   | none => true) &&
  (match rule.proxied with
   | some b => record.proxied == some b
   | none => true)

/-- `matches_record`: the sequence of early-return checks of the source,
written as a short-circuit conjunction — type equality (case-insensitive),
name match, then the content/proxied predicates on normalized content. -/
def matches_record (record : DnsRecord) (rule : Rule) : Bool :=
  (match rule.type with
   | some t => upperStr record.type == upperStr t
   | none => true) &&
  (match rule.name with
   | some n => _rec_name_matches_rule record.name n
   | none => true) &&
  valuePredicate record rule

/-- Python `str(x)` of `rule.get(k)` in an f-string: `None` when absent. -/
def pyStrOpt (o : Option String) : String := o.getD "None"

/-- The filter the `record_value_match` branch applies to locate its target
records: type equality (case-insensitive, against `rule.get("type","")`) and
rule-name match (against `rule.get("name","")`). -/
def targetPred (rule : Rule) (r : DnsRecord) : Bool :=
  upperStr r.type == upperStr (rule.type.getD "")
    && _rec_name_matches_rule r.name (rule.name.getD "")

/-- `_check_record_policy`: check one policy against the live records,
returning `none` when the policy passes and a finding dict otherwise. -/
def _check_record_policy (policy : Policy) (live_records : List DnsRecord) :
    Option Finding :=
  let rule := policy.rule
  if policy.rule_type == "record_required" then
    if live_records.any (fun r => matches_record r rule) then
      none
    else
      some { policy_id := policy.id
             severity := policy.severity
             ftype := "missing_record"
             description := "Required record not found: " ++ rule.type.getD "?"
               ++ " " ++ rule.name.getD "@"
             expected := some (.ofRule rule)
             actual := none
             auto_heal := policy.auto_heal
             heal_action := policy.heal_action }
  else if policy.rule_type == "record_forbidden" then
    let matching := live_records.filter (fun r => matches_record r rule)
    match matching with
    | [] => none
    | m0 :: _ =>
      some { policy_id := policy.id
             severity := policy.severity
             ftype := "forbidden_record_present"
             description := "Forbidden record found: " ++ rule.type.getD "?"
               ++ " " ++ rule.name.getD "@"
             expected := some (.ofText "no record matching this rule")
             actual := some m0
             auto_heal := false
             heal_action := none }
  else if policy.rule_type == "record_value_match" then
    let target_records := live_records.filter (targetPred rule)
    match target_records with
    | [] =>
      some { policy_id := policy.id
             severity := policy.severity
             ftype := "record_value_mismatch"
             description := "Record " ++ pyStrOpt rule.type ++ " "
               ++ pyStrOpt rule.name ++ " not found for value check"
             expected := some (.ofRule rule)
             actual := none
             auto_heal := policy.auto_heal
             heal_action := policy.heal_action }
    | t0 :: _ =>
      if target_records.any (fun r => matches_record r rule) then
        none
      else
        some { policy_id := policy.id
               severity := policy.severity
               ftype := "record_value_mismatch"
               description := "Record " ++ pyStrOpt rule.type ++ " "
                 ++ pyStrOpt rule.name ++ " value doesn\x27t match policy"
               expected := some (.ofRule rule)
               actual := some t0
               auto_heal := policy.auto_heal
               heal_action := policy.heal_action }
  else
    none

/-! ## `_is_safe_to_auto_heal` -/

/-- `_is_safe_to_auto_heal`: a finding may be healed without approval only
outside the audit-only set, only when flagged `auto_heal`, and only for an
add/upsert/add_if_missing of TXT/CAA/CNAME records.  The Python expression
`heal_action.get("record", heal_action.get("records", []))` yields the single
`record` dict when present, else the `records` list, else `[]` (over which
`all` is vacuously true). -/
def _is_safe_to_auto_heal (finding : Finding) (domain : String) : Bool :=
  if AUDIT_ONLY_DOMAINS.contains domain then false
  else if !finding.auto_heal then false
  else
    let heal_action := finding.heal_action.getD {}
    let action := heal_action.action
    if action == "add" || action == "upsert" || action == "add_if_missing" then
      match heal_action.record with
      | some record =>
        let rec_type := record.type.getD ""
        rec_type == "TXT" || rec_type == "CAA" || rec_type == "CNAME"
      | none =>
        (heal_action.records.getD []).all (fun r =>
          r.type == some "TXT" || r.type == some "CAA" || r.type == some "CNAME")
    else
      false

/-- The records a heal action prescribes, as the specification reads them:
the single `record` when present, else the `records` list, else none. -/
def prescribedRecords (ha : HealAction) : List HealRecord :=
  match ha.record with
  | some r => [r]
  | none => ha.records.getD []

/-! ## `_apply_heal_action` (outcome abstraction)

The applicator's side effects are Cloudflare record creations; only the final
`applied` flag of its result dict feeds back into the audit loop.  `createOk`
is the oracle for `create_dns_record` succeeding on a given record, and
`healApplied` computes the final value of `result["applied"]` for
`dry_run=False` (the audit path): `False` for a `description` action or an
empty prescription, else the outcome for the last record attempted (the
Python loop overwrites `result["applied"]` at each iteration). -/

def healApplied (createOk : HealRecord → Bool) (finding : Finding) : Bool :=
  let heal_action := finding.heal_action.getD {}
  let action := heal_action.action
  if action == "description" then false
  else
    let records_to_add : List HealRecord :=
      match (action == "add" || action == "upsert"), heal_action.record with
      | true, some r => [r]
      | _, _ =>
        match (action == "add_if_missing"), heal_action.records with
        | true, some rs => rs
        | _, _ => []
    match records_to_add with
    | [] => false
    | rs => rs.foldl (fun _ r => createOk r) false

/-! ## The `dns_audit` orchestrator loop (`_handle_dns_audit`) -/

/-- A domain config row, restricted to the keys the audit loop consults. -/
structure DomainConfig where
  domain : String := ""
  cloudflare_zone_id : Option String := none
  tier : Nat := 0
deriving DecidableEq

/-- External collaborators of one audit run: the Cloudflare zone map
(`zone_map.get(domain)`), the per-zone record fetch (`list_dns_records`,
which may raise), the per-domain applicable policies
(`_get_policies_for_domain`, a Supabase query), the create-record success
oracle used by `_apply_heal_action`, and the run id. -/
structure AuditEnv where
  zoneMap : String → Option String
  fetch : String → Except String (List DnsRecord)
  policiesFor : DomainConfig → List Policy
  createOk : HealRecord → Bool
  runId : String

/-- Python string truthiness: `None` and `""` are falsy. -/
def truthyStr : Option String → Option String
  | some s => if s == "" then none else some s
  | none => none

/-- `zone_map.get(domain) or config.get("cloudflare_zone_id")` followed by
`if not zone_id`. -/
def resolveZone (env : AuditEnv) (config : DomainConfig) : Option String :=
  match truthyStr (env.zoneMap config.domain) with
  | some z => some z
  | none => truthyStr config.cloudflare_zone_id

/-- The `zone_not_found` domain-level finding. -/
def zoneNotFoundFinding (domain : String) : Finding :=
  { domain := domain
    severity := "critical"
    ftype := "zone_not_found"
    description := "Zone not found in Cloudflare account for " ++ domain
    auto_heal := false }

/-- The `cloudflare_error` domain-level finding emitted when fetching live
records raises. -/
def cloudflareErrorFinding (domain e : String) : Finding :=
  { domain := domain
    severity := "critical"
    ftype := "cloudflare_error"
    description := "Failed to fetch records: " ++ e
    auto_heal := false }

/-- Outcome of processing one failing policy inside the audit loop:
the (possibly flag-updated) finding dict, whether it was appended to
`all_findings`, whether a heal result was appended to `healed`, and whether
the domain was appended to `queued`. -/
structure PolicyOutcome where
  finding : Finding
  appended : Bool
  healedInc : Bool
  queuedInc : Bool
deriving DecidableEq

/-- The body of the audit loop for one failing policy (a finding that already
carries `domain` and `run_id`):

* `fix_safe` and safe → attempt the heal; on success mark `healed` and skip
  the append (`continue`); on failure fall through to the append;
* else, when the finding is not safe, has a truthy `heal_action` and the
  domain is not audit-only: queue for approval when the heal action carries a
  `record`, and append the finding;
* else just append the finding. -/
def processPolicyFinding (fix_safe : Bool) (createOk : HealRecord → Bool)
    (domain : String) (finding : Finding) : PolicyOutcome :=
  if fix_safe && _is_safe_to_auto_heal finding domain then
    if healApplied createOk finding then
      { finding := { finding with healed := true }
        appended := false, healedInc := true, queuedInc := false }
    else
      { finding := finding, appended := true, healedInc := false, queuedInc := false }
  else if !(_is_safe_to_auto_heal finding domain) && finding.heal_action.isSome
      && !(AUDIT_ONLY_DOMAINS.contains domain) then
    match finding.heal_action.bind (fun ha => ha.record) with
    | some _ =>
      { finding := { finding with queued_for_approval := true }
        appended := true, healedInc := false, queuedInc := true }
    | none =>
      { finding := finding, appended := true, healedInc := false, queuedInc := false }
  else
    { finding := finding, appended := true, healedInc := false, queuedInc := false }

/-- Accumulated outcome of one domain (or of a whole run):
`findings` is the slice of `all_findings`, `healedCount`/`queuedCount` the
contributions to `healed`/`queued`, and `passed` the `domain_passed` flag. -/
structure DomainResult where
  findings : List Finding
  healedCount : Nat
  queuedCount : Nat
  passed : Bool
deriving DecidableEq

/-- The per-policy loop over one domain's applicable policies. -/
def processPolicies (fix_safe : Bool) (createOk : HealRecord → Bool)
    (domain runId : String) (live_records : List DnsRecord) :
    List Policy → DomainResult
  | [] => { findings := [], healedCount := 0, queuedCount := 0, passed := true }
  | p :: rest =>
    let acc := processPolicies fix_safe createOk domain runId live_records rest
    match _check_record_policy p live_records with
    | none => acc
    | some f0 =>
      let f1 := { f0 with domain := domain, run_id := runId }
      let o := processPolicyFinding fix_safe createOk domain f1
      { findings := (if o.appended then [o.finding] else []) ++ acc.findings
        healedCount := (if o.healedInc then 1 else 0) + acc.healedCount
        queuedCount := (if o.queuedInc then 1 else 0) + acc.queuedCount
        passed := false }

/-- One iteration of the audit loop's domain loop: resolve the zone id
(missing → `zone_not_found` finding and `continue`), fetch live records
(failure → `cloudflare_error` finding and `continue`), else evaluate every
applicable policy. -/
def auditDomain (env : AuditEnv) (fix_safe : Bool) (config : DomainConfig) :
    DomainResult :=
  match resolveZone env config with
  | none =>
    { findings := [zoneNotFoundFinding config.domain]
      healedCount := 0, queuedCount := 0, passed := false }
  | some zone_id =>
    match env.fetch zone_id with
    | .error e =>
      { findings := [cloudflareErrorFinding config.domain e]
        healedCount := 0, queuedCount := 0, passed := false }
    | .ok live_records =>
      processPolicies fix_safe env.createOk config.domain env.runId live_records
        (env.policiesFor config)

/-- Accumulated state of a whole audit run over the config list. -/
structure RunResult where
  findings : List Finding
  healedCount : Nat
  queuedCount : Nat
  passedCount : Nat
deriving DecidableEq

/-- The audit loop over all domain configs; one domain's outcome never
affects the processing of the remaining domains. -/
def auditRun (env : AuditEnv) (fix_safe : Bool) : List DomainConfig → RunResult
  | [] => { findings := [], healedCount := 0, queuedCount := 0, passedCount := 0 }
  | c :: rest =>
    let d := auditDomain env fix_safe c
    let r := auditRun env fix_safe rest
    { findings := d.findings ++ r.findings
      healedCount := d.healedCount + r.healedCount
      queuedCount := d.queuedCount + r.queuedCount
      passedCount := (if d.passed then 1 else 0) + r.passedCount }

/-- The `summary` dict persisted in the `dns_audit_log` row. -/
structure Summary where
  pass : Nat
  drift : Nat
  auto_healed : Nat
  pending_approval : Nat
  total_findings : Nat
deriving DecidableEq

/-- The summary computed at the end of `_handle_dns_audit`:
`pass`/`drift` from the domain outcomes, `auto_healed = len(healed)`,
`pending_approval = len(queued)`, `total_findings = len(all_findings)`. -/
def auditSummary (env : AuditEnv) (fix_safe : Bool)
    (configs : List DomainConfig) : Summary :=
  let r := auditRun env fix_safe configs
  { pass := r.passedCount
    drift := configs.length - r.passedCount
    auto_healed := r.healedCount
    pending_approval := r.queuedCount
    total_findings := r.findings.length }

/-! ## The `dns_approve` handler (`_handle_dns_approve`) -/

/-- A `dns_approval_queue` row, restricted to the keys the handler consults. -/
structure ApprovalItem where
  status : String := ""
  domain : String := ""
  proposed_value : Option HealRecord := none
  action : String := "create"
  cloudflare_record_id : Option String := none
  record_type : Option String := none
  record_name : Option String := none
deriving DecidableEq

/-- A Cloudflare mutation dispatched by `dns_approve`. -/
inductive CfOp where
  | create (zone_id : String) (payload : HealRecord)
  | update (zone_id record_id : String) (payload : HealRecord)
  | delete (zone_id record_id : String)
deriving DecidableEq

/-- The persistent side effects of the approve handler, in program order:
the applied Cloudflare mutation, the `dns_change_log` insert, and the
`dns_approval_queue` status update. -/
inductive Effect where
  | cfApplied (op : CfOp)
  | changeLogged (domain action : String)
  | statusSet (approval_id status : String)
deriving DecidableEq

/-- How the handler's textual response classifies. -/
inductive ApproveOutcome where
  | notFound
  | notPending (status : String)
  | noZone
  | missingRecordId
  | unknownAction (action : String)
  | applied
  | failed (e : String)
deriving DecidableEq

/-- External collaborators of `dns_approve`: the approval-queue row lookup,
the domain config lookup, the `get_zone_id` fallback, and the Cloudflare
dispatch (create/update/delete), which may raise. -/
structure ApproveEnv where
  getItem : String → Option ApprovalItem
  getConfig : String → Option DomainConfig
  getZoneId : String → Option String
  cfDispatch : CfOp → Except String HealRecord

/-- `_handle_dns_approve` as a trace of persisted effects plus an outcome:
pending-only guard, zone resolution (config zone id, else `get_zone_id`),
dispatch on the stored action, and — only after a successful dispatch —
the change-log insert followed by the status flip to `approved`.  A raising
dispatch is caught and turned into a failure response with no effects. -/
def _handle_dns_approve (env : ApproveEnv) (approval_id : String) :
    List Effect × ApproveOutcome :=
  match env.getItem approval_id with
  | none => ([], .notFound)
  | some item =>
    if item.status != "pending" then ([], .notPending item.status)
    else
      let zone_id :=
        match truthyStr (env.getConfig item.domain |>.bind
            (fun c => c.cloudflare_zone_id)) with
        | some z => some z
        | none => truthyStr (env.getZoneId item.domain)
      match zone_id with
      | none => ([], .noZone)
      | some z =>
        let proposed := item.proposed_value.getD {}
        let opOrErr : Except ApproveOutcome CfOp :=
          if item.action == "create" then .ok (.create z proposed)
          else if item.action == "update" then
            match truthyStr item.cloudflare_record_id with
            | some rid => .ok (.update z rid proposed)
            | none =>
              match truthyStr proposed.id with
              | some rid => .ok (.update z rid proposed)
              | none => .error .missingRecordId
          else if item.action == "delete" then
            match truthyStr item.cloudflare_record_id with
            | some rid => .ok (.delete z rid)
            | none => .error .missingRecordId
          else .error (.unknownAction item.action)
        match opOrErr with
        | .error out => ([], out)
        | .ok op =>
          match env.cfDispatch op with
          | .error e => ([], .failed e)
          | .ok _ =>
            ([.cfApplied op,
              .changeLogged item.domain item.action,
              .statusSet approval_id "approved"], .applied)

/-! ## Claim statements taken verbatim from the specification

Each `claim…Stated` proposition is a direct formalisation of a claim's own
wording (for comparison with the behaviour of the embedded source); the
amended claims are stated directly as theorems further below. -/

/-- Claim C1 as stated: `_is_safe_to_auto_heal` returns `True` **only** when
the heal action is an add/upsert/add_if_missing of **one or more** records of
type TXT/CAA/CNAME (plus the two unconditional `False` cases). -/
def claimC1Stated : Prop :=
  ∀ (f : Finding) (domain : String),
    (AUDIT_ONLY_DOMAINS.contains domain = true →
      _is_safe_to_auto_heal f domain = false) ∧
    (f.auto_heal = false → _is_safe_to_auto_heal f domain = false) ∧
    (_is_safe_to_auto_heal f domain = true ↔
      (AUDIT_ONLY_DOMAINS.contains domain = false ∧ f.auto_heal = true ∧
       ∃ ha, f.heal_action = some ha ∧
         (ha.action = "add" ∨ ha.action = "upsert" ∨ ha.action = "add_if_missing") ∧
         prescribedRecords ha ≠ [] ∧
         ∀ r ∈ prescribedRecords ha,
           ∃ t, r.type = some t ∧ (t = "TXT" ∨ t = "CAA" ∨ t = "CNAME")))

/-- Claim C2 as stated (the failing part): whenever a failing policy's
finding is not auto-healed (`fix_safe` and safe), it is queued for approval
as soon as it has a heal_action and the domain is not audit-only. -/
def claimC2Stated : Prop :=
  ∀ (fix_safe : Bool) (createOk : HealRecord → Bool) (domain : String) (f : Finding),
    ¬(fix_safe = true ∧ _is_safe_to_auto_heal f domain = true) →
    f.heal_action.isSome = true →
    AUDIT_ONLY_DOMAINS.contains domain = false →
    (processPolicyFinding fix_safe createOk domain f).queuedInc = true

/-- Claim C7 as stated: normalizing a record whose content is the normalized
output of **some** (arbitrary) record returns that content unchanged. -/
def claimC7Stated : Prop :=
  ∀ (r2 r1 : DnsRecord),
    r2.content = _normalize_content r1 → _normalize_content r2 = r2.content

/-! ## Concrete values used by witnesses and counterexamples -/

/-- A finding whose heal action is an `add` that prescribes no record at all
(`heal_action` has neither a `record` nor a `records` key). -/
def exEmptyAddFinding : Finding :=
  { auto_heal := true, heal_action := some { action := "add" } }

/-- A finding that is safe to auto-heal on a non-audit-only domain:
`auto_heal` set, heal action `add` of a TXT record. -/
def exSafeFinding : Finding :=
  { policy_id := "dmarc-required"
    severity := "warning"
    ftype := "missing_record"
    description := "Required record not found: TXT _dmarc"
    auto_heal := true
    heal_action := some { action := "add"
                          record := some { type := some "TXT", name := "_dmarc"
                                           content := "v=DMARC1; p=quarantine" } } }

/-- A `record_required` policy (SPF TXT at apex). -/
def exRequiredPolicy : Policy :=
  { id := "spf-required"
    rule_type := "record_required"
    rule := { type := some "TXT", name := some "@", content_contains := some "v=spf1" }
    auto_heal := true
    heal_action := some { action := "add"
                          record := some { type := some "TXT", name := "@"
                                           content := "v=spf1 ~all" } } }

/-- A `record_forbidden` policy, with `auto_heal` deliberately set on the
policy to observe that forbidden-record findings still come back
non-healable. -/
def exForbiddenPolicy : Policy :=
  { id := "no-sendgrid"
    rule_type := "record_forbidden"
    rule := { type := some "CNAME", content_contains := some "sendgrid.net" }
    auto_heal := true
    heal_action := some { action := "add" } }

/-- The specification's `record_value_match` SPF example policy. -/
def exSpfPolicy : Policy :=
  { id := "spf-google"
    rule_type := "record_value_match"
    rule := { type := some "TXT", name := some "@"
              content_contains_any := some ["include:google.com"] }
    auto_heal := false }

/-- The specification's live SPF record pointing at sendgrid instead. -/
def exSpfRecord : DnsRecord :=
  { type := "TXT", name := "omapex.com", content := "v=spf1 include:sendgrid.net ~all" }

/-- A matching CNAME record for the forbidden-policy witness. -/
def exCnameRecord : DnsRecord :=
  { type := "CNAME", name := "em.omapex.com", content := "u12345.wl.sendgrid.net" }

/-- An audit environment whose Cloudflare fetch raises for zone `z1` and
succeeds (with no records) for every other zone. -/
def exAuditEnv : AuditEnv :=
  { zoneMap := fun d => if d == "omapex.com" then some "z1" else some "z2"
    fetch := fun z => if z == "z1" then .error "HTTP 500" else .ok []
    policiesFor := fun _ => [exRequiredPolicy]
    createOk := fun _ => true
    runId := "AUDIT-20260101-000000" }

/-- Domain configs used by the audit witnesses. -/
def exConfigA : DomainConfig := { domain := "omapex.com" }

def exConfigB : DomainConfig := { domain := "omcortex.ai" }

/-- A pending approval item whose stored action is a create. -/
def exApprovalItem : ApprovalItem :=
  { status := "pending"
    domain := "omapex.com"
    proposed_value := some { type := some "MX", name := "@", content := "smtp.google.com" }
    action := "create"
    record_type := some "MX"
    record_name := some "@" }

/-- An approve environment whose Cloudflare dispatch always raises. -/
def exApproveEnv : ApproveEnv :=
  { getItem := fun aid => if aid == "A1" then some exApprovalItem else none
    getConfig := fun _ => some { domain := "omapex.com", cloudflare_zone_id := some "z1" }
    getZoneId := fun _ => none
    cfDispatch := fun _ => .error "Cloudflare API error 9109" }

/-! ## Supporting lemmas: ASCII case mapping -/

theorem char_toNat_ofNat (n : Nat) (h : n < 55296) : (Char.ofNat n).toNat = n := by
  unfold Char.ofNat
  rw [dif_pos (Or.inl h)]
  rfl

theorem char_eq_of_toNat_eq {c d : Char} (h : c.toNat = d.toNat) : c = d :=
  Char.eq_of_val_eq (UInt32.ext h)

theorem lowerChar_toNat (c : Char) :
    (lowerChar c).toNat = if 65 ≤ c.toNat ∧ c.toNat ≤ 90 then c.toNat + 32 else c.toNat := by
  unfold lowerChar
  split
  next h => exact char_toNat_ofNat _ (by omega)
  next h => rfl

theorem lowerChar_eq_dot (c : Char) : lowerChar c = '.' ↔ c = '.' := by
  constructor
  · intro h
    have h2 := congrArg Char.toNat h
    rw [lowerChar_toNat] at h2
    apply char_eq_of_toNat_eq
    revert h2
    split <;> intro h2 <;> simp only [show ('.').toNat = 46 from rfl] at * <;> omega
  · intro h
    subst h
    unfold lowerChar
    rw [if_neg]
    simp only [show ('.').toNat = 46 from rfl]
    omega

theorem lowerChar_eq_at (c : Char) : lowerChar c = '@' ↔ c = '@' := by
  constructor
  · intro h
    have h2 := congrArg Char.toNat h
    rw [lowerChar_toNat] at h2
    apply char_eq_of_toNat_eq
    revert h2
    split <;> intro h2 <;> simp only [show ('@').toNat = 64 from rfl] at * <;> omega
  · intro h
    subst h
    unfold lowerChar
    rw [if_neg]
    simp only [show ('@').toNat = 64 from rfl]
    omega

theorem lowerChar_not_upperRange (c : Char) :
    ¬(65 ≤ (lowerChar c).toNat ∧ (lowerChar c).toNat ≤ 90) := by
  rw [lowerChar_toNat]
  split <;> omega

theorem lowerChar_idem (c : Char) : lowerChar (lowerChar c) = lowerChar c := by
  rw [show lowerChar (lowerChar c)
        = if 65 ≤ (lowerChar c).toNat ∧ (lowerChar c).toNat ≤ 90
          then Char.ofNat ((lowerChar c).toNat + 32) else lowerChar c from rfl,
     if_neg (lowerChar_not_upperRange c)]

theorem lowerStr_idem (s : String) : lowerStr (lowerStr s) = lowerStr s := by
  unfold lowerStr
  simp only [List.map_map]
  congr 1
  apply List.map_congr_left
  intro c _
  exact lowerChar_idem c

theorem lowerChar_beq_dot (c : Char) : (lowerChar c == '.') = (c == '.') := by
  by_cases h : c = '.'
  · subst h; decide
  · have h2 : lowerChar c ≠ '.' := fun hh => h ((lowerChar_eq_dot c).mp hh)
    simp [h, h2]

theorem lowerStr_count_dot (s : String) :
    ((lowerStr s).data.count '.') = s.data.count '.' := by
  show (s.data.map lowerChar).count '.' = s.data.count '.'
  induction s.data with
  | nil => rfl
  | cons c t ih =>
    simp only [List.map_cons, List.count_cons, ih, lowerChar_beq_dot]

theorem lowerStr_eq_atSign (s : String) : lowerStr s = "@" ↔ s = "@" := by
  constructor
  · intro h
    have hd : s.data.map lowerChar = ['@'] := congrArg String.data h
    obtain ⟨c, t, hct⟩ : ∃ c t, s.data = c :: t := by
      cases hs : s.data with
      | nil => rw [hs] at hd; simp at hd
      | cons c t => exact ⟨c, t, rfl⟩
    rw [hct] at hd
    simp only [List.map_cons] at hd
    injection hd with h1 h2
    have ht : t = [] := by
      cases t with
      | nil => rfl
      | cons a u => simp at h2
    have hc : c = '@' := (lowerChar_eq_at c).mp h1
    cases s with
    | mk d =>
      simp only at hct
      rw [show ("@" : String) = ⟨['@']⟩ from rfl]
      rw [hct, ht, hc]
  · intro h
    subst h
    rfl

/-! ## Supporting lemmas: quote stripping -/

theorem dropWhile_head_false {p : Char → Bool} :
    ∀ (l : List Char) (c : Char) (t : List Char), l.dropWhile p = c :: t → p c = false := by
  intro l
  induction l with
  | nil => intro c t h; simp [List.dropWhile] at h
  | cons a l ih =>
    intro c t h
    by_cases hp : p a = true
    · rw [List.dropWhile_cons_of_pos hp] at h
      exact ih c t h
    · rw [List.dropWhile_cons_of_neg hp] at h
      injection h with h1 _
      rw [← h1]
      exact Bool.eq_false_iff.mpr hp

theorem stripL_head_ne (q : Char) (l : List Char) (c : Char) (t : List Char)
    (h : stripL q l = c :: t) : (c == q) = false := by
  have h2 := congrArg List.reverse
    (List.takeWhile_append_dropWhile (p := fun x => x == q)
      (l := (l.dropWhile (fun x => x == q)).reverse))
  rw [List.reverse_append, List.reverse_reverse] at h2
  have h1 : l.dropWhile (fun x => x == q)
      = (c :: t)
        ++ ((l.dropWhile (fun x => x == q)).reverse.takeWhile (fun x => x == q)).reverse :=
    h2.symm.trans (congrArg
      (fun y => y ++ ((l.dropWhile (fun x => x == q)).reverse.takeWhile
        (fun x => x == q)).reverse) h)
  exact dropWhile_head_false l c _ h1

/-- If a TXT record's content has been normalized, the result never starts
with a double quote. -/
theorem normalize_txt_no_leading_quote (r : DnsRecord)
    (hT : upperStr r.type = "TXT") :
    pyStartsWith (_normalize_content r) "\"" = false := by
  unfold _normalize_content
  by_cases hs : pyStartsWith r.content "\"" = true
  · rw [if_pos (by rw [hT, hs]; rfl)]
    unfold pyStartsWith pyStripQuotes
    cases hstrip : stripL '"' (pyReplace r.content "\" \"" "").data with
    | nil => rfl
    | cons c t =>
      have hne := stripL_head_ne '"' _ c t hstrip
      show List.isPrefixOf ('"' :: []) (c :: t) = false
      show (('"' == c) && List.isPrefixOf [] t) = false
      have hcc : ('"' == c) = false := by
        rcases Bool.eq_false_or_eq_true ('"' == c) with hb | hb
        · have hc : c = '"' := (eq_of_beq hb).symm
          rw [hc] at hne
          simp at hne
        · exact hb
      rw [hcc]
      rfl
  · rw [if_neg]
    · exact Bool.eq_false_iff.mpr hs
    · intro hcond
      rw [Bool.and_eq_true] at hcond
      exact hs hcond.2

/-! ## Claim C7 — TXT content normalization idempotence -/

/-- C7 (counterexample): the claim as stated quantifies the inner record over
**all** records; but the normalized output of a non-TXT record whose content
is `"x"` (quotes included) is that same quoted string, and re-normalizing it
on a TXT record strips the quotes, producing a different string. -/
theorem c7_counterexample : ¬ claimC7Stated := by
  intro h
  have h2 := h { type := "TXT", content := "\"x\"" } { type := "A", content := "\"x\"" }
    (by decide)
  exact absurd h2 (by decide)

/-- C7 (amended): normalization applied to any record whose content is
already the normalized output of some **TXT-typed** record returns that
content unchanged — `normalize(normalize-output) == normalize-output`. -/
theorem c7_normalize_idempotent (r1 r2 : DnsRecord)
    (h1 : upperStr r1.type = "TXT") (h2 : r2.content = _normalize_content r1) :
    _normalize_content r2 = r2.content := by
  have hq : pyStartsWith r2.content "\"" = false := by
    rw [h2]
    exact normalize_txt_no_leading_quote r1 h1
  unfold _normalize_content
  rw [if_neg]
  intro hcond
  rw [Bool.and_eq_true] at hcond
  rw [hq] at hcond
  exact absurd hcond.2 (by simp)

/-- C7 (witness): concrete instantiation of the amended claim — the
normalization of a segmented TXT value, fed back in as TXT content, is a
fixed point. -/
theorem c7_witness :
    upperStr (DnsRecord.type { type := "TXT", content := "\"a\" \"b\"" }) = "TXT" ∧
    _normalize_content { type := "TXT", content := "ab" } = "ab" := by
  refine ⟨by decide, ?_⟩
  have hc : ({ type := "TXT", content := "ab" } : DnsRecord).content
      = _normalize_content { type := "TXT", content := "\"a\" \"b\"" } := by decide
  exact c7_normalize_idempotent { type := "TXT", content := "\"a\" \"b\"" }
    { type := "TXT", content := "ab" } (by decide) hc

/-! ## Claim C6 — record-name matching against a rule name -/

/-- C6: record-name matching is case-insensitive (it only depends on the
lowercased names); rule name `"@"` matches exactly the names equal to `"@"`
or containing at most one dot; any other rule name matches exactly when its
lowercased form is a substring of the lowercased record name. -/
theorem c6_rec_name_matches_rule_characterization :
    (∀ rec_name rule_name : String,
      _rec_name_matches_rule rec_name rule_name
        = _rec_name_matches_rule (lowerStr rec_name) (lowerStr rule_name)) ∧
    (∀ rec_name : String,
      _rec_name_matches_rule rec_name "@" = true ↔
        rec_name = "@" ∨ rec_name.data.count '.' ≤ 1) ∧
    (∀ rec_name rule_name : String, rule_name ≠ "@" →
      _rec_name_matches_rule rec_name rule_name
        = pyContains (lowerStr rule_name) (lowerStr rec_name)) := by
  refine ⟨?_, ?_, ?_⟩
  · intro rec_name rule_name
    simp only [_rec_name_matches_rule, lowerStr_idem]
  · intro rec_name
    unfold _rec_name_matches_rule
    rw [show lowerStr "@" = "@" from rfl]
    simp only [show (("@" : String) == "@") = true from rfl, if_true]
    rw [Bool.or_eq_true, decide_eq_true_iff]
    constructor
    · rintro (h | h)
      · exact Or.inl (lowerStr_eq_atSign rec_name |>.mp (eq_of_beq h))
      · exact Or.inr (by rw [← lowerStr_count_dot]; exact h)
    · rintro (h | h)
      · exact Or.inl (by rw [(lowerStr_eq_atSign rec_name).mpr h]; rfl)
      · exact Or.inr (by rw [lowerStr_count_dot]; exact h)
  · intro rec_name rule_name hne
    unfold _rec_name_matches_rule
    rw [if_neg]
    intro hcond
    exact hne ((lowerStr_eq_atSign rule_name).mp (eq_of_beq hcond))

/-- C6 (witness): the bare apex name matches `"@"` (one dot), and a
mixed-case DMARC name matches the `_dmarc` rule by lowercased substring. -/
theorem c6_witness :
    (_rec_name_matches_rule "omapex.com" "@" = true) ∧
    (_rec_name_matches_rule "_DMARC.omapex.com" "_dmarc"
      = pyContains (lowerStr "_dmarc") (lowerStr "_DMARC.omapex.com")) :=
  ⟨(c6_rec_name_matches_rule_characterization.2.1 "omapex.com").mpr (Or.inr (by decide)),
   c6_rec_name_matches_rule_characterization.2.2 "_DMARC.omapex.com" "_dmarc" (by decide)⟩

/-! ## Claims C3/C4/C5 — the policy matcher -/

/-- The `missing_record` finding literal built by the `record_required`
branch. -/
def missingRecordFinding (policy : Policy) : Finding :=
  { policy_id := policy.id
    severity := policy.severity
    ftype := "missing_record"
    description := "Required record not found: " ++ policy.rule.type.getD "?"
      ++ " " ++ policy.rule.name.getD "@"
    expected := some (.ofRule policy.rule)
    actual := none
    auto_heal := policy.auto_heal
    heal_action := policy.heal_action }

theorem check_required_reduce (policy : Policy) (live_records : List DnsRecord)
    (h : policy.rule_type = "record_required") :
    _check_record_policy policy live_records =
      (if live_records.any (fun r => matches_record r policy.rule) then none
       else some (missingRecordFinding policy)) := by
  unfold _check_record_policy missingRecordFinding
  rw [h]
  rfl

/-- The `forbidden_record_present` finding literal built by the
`record_forbidden` branch for the first matching record. -/
def forbiddenRecordFinding (policy : Policy) (m0 : DnsRecord) : Finding :=
  { policy_id := policy.id
    severity := policy.severity
    ftype := "forbidden_record_present"
    description := "Forbidden record found: " ++ policy.rule.type.getD "?"
      ++ " " ++ policy.rule.name.getD "@"
    expected := some (.ofText "no record matching this rule")
    actual := some m0
    auto_heal := false
    heal_action := none }

theorem check_forbidden_reduce (policy : Policy) (live_records : List DnsRecord)
    (h : policy.rule_type = "record_forbidden") :
    _check_record_policy policy live_records =
      (match live_records.filter (fun r => matches_record r policy.rule) with
       | [] => none
       | m0 :: _ => some (forbiddenRecordFinding policy m0)) := by
  unfold _check_record_policy forbiddenRecordFinding
  rw [h]
  rfl

/-- The two `record_value_mismatch` finding literals built by the
`record_value_match` branch. -/
def valueMissingFinding (policy : Policy) : Finding :=
  { policy_id := policy.id
    severity := policy.severity
    ftype := "record_value_mismatch"
    description := "Record " ++ pyStrOpt policy.rule.type ++ " "
      ++ pyStrOpt policy.rule.name ++ " not found for value check"
    expected := some (.ofRule policy.rule)
    actual := none
    auto_heal := policy.auto_heal
    heal_action := policy.heal_action }

def valueMismatchFinding (policy : Policy) (t0 : DnsRecord) : Finding :=
  { policy_id := policy.id
    severity := policy.severity
    ftype := "record_value_mismatch"
    description := "Record " ++ pyStrOpt policy.rule.type ++ " "
      ++ pyStrOpt policy.rule.name ++ " value doesn\x27t match policy"
    expected := some (.ofRule policy.rule)
    actual := some t0
    auto_heal := policy.auto_heal
    heal_action := policy.heal_action }

theorem check_value_reduce (policy : Policy) (live_records : List DnsRecord)
    (h : policy.rule_type = "record_value_match") :
    _check_record_policy policy live_records =
      (match live_records.filter (targetPred policy.rule) with
       | [] => some (valueMissingFinding policy)
       | t0 :: _ =>
         if (live_records.filter (targetPred policy.rule)).any
             (fun r => matches_record r policy.rule) then none
         else some (valueMismatchFinding policy t0)) := by
  unfold _check_record_policy valueMissingFinding valueMismatchFinding
  rw [h]
  rfl

/-- Turning a pointwise-false predicate into `any = false`. -/
theorem any_eq_false_of_forall {α : Type} (p : α → Bool) (l : List α)
    (hall : ∀ x ∈ l, p x = false) : l.any p = false := by
  rcases Bool.eq_false_or_eq_true (l.any p) with hb | hb
  · obtain ⟨x, hx, hp⟩ := List.any_eq_true.mp hb
    rw [hall x hx] at hp
    exact absurd hp (by simp)
  · exact hb

/-- C3: for a `record_required` policy, `_check_record_policy` passes
(returns `none`) when at least one live record structurally matches the rule
predicate, and otherwise returns a `missing_record` finding whose `auto_heal`
and `heal_action` are copied from the policy. -/
theorem c3_record_required (policy : Policy) (live_records : List DnsRecord)
    (h : policy.rule_type = "record_required") :
    ((∃ r ∈ live_records, matches_record r policy.rule = true) →
      _check_record_policy policy live_records = none) ∧
    ((∀ r ∈ live_records, matches_record r policy.rule = false) →
      ∃ f, _check_record_policy policy live_records = some f ∧
        f.ftype = "missing_record" ∧ f.auto_heal = policy.auto_heal ∧
        f.heal_action = policy.heal_action) := by
  rw [check_required_reduce policy live_records h]
  constructor
  · rintro ⟨r, hr, hm⟩
    rw [List.any_eq_true.mpr ⟨r, hr, hm⟩]
    rfl
  · intro hall
    rw [any_eq_false_of_forall _ _ hall]
    exact ⟨missingRecordFinding policy, rfl, rfl, rfl, rfl⟩

/-- C3 (witness): the SPF-required policy against an empty record list
produces a `missing_record` finding carrying the policy's heal data. -/
theorem c3_witness :
    ∃ f, _check_record_policy exRequiredPolicy [] = some f ∧
      f.ftype = "missing_record" ∧ f.auto_heal = exRequiredPolicy.auto_heal ∧
      f.heal_action = exRequiredPolicy.heal_action :=
  (c3_record_required exRequiredPolicy [] rfl).2 (by simp)

/-- C4: for a `record_forbidden` policy, `_check_record_policy` passes iff no
live record matches, and any finding it returns has `auto_heal = false` and
`heal_action = none` regardless of the policy's own flags. -/
theorem c4_record_forbidden (policy : Policy) (live_records : List DnsRecord)
    (h : policy.rule_type = "record_forbidden") :
    (_check_record_policy policy live_records = none ↔
      ∀ r ∈ live_records, matches_record r policy.rule = false) ∧
    ((∃ r ∈ live_records, matches_record r policy.rule = true) →
      ∃ f, _check_record_policy policy live_records = some f ∧
        f.ftype = "forbidden_record_present" ∧
        f.auto_heal = false ∧ f.heal_action = none) := by
  rw [check_forbidden_reduce policy live_records h]
  constructor
  · constructor
    · intro hnone r hr
      rcases hfil : live_records.filter (fun r => matches_record r policy.rule)
        with _ | ⟨m0, ms⟩
      · rcases Bool.eq_false_or_eq_true (matches_record r policy.rule) with hb | hb
        · exfalso
          have hmem : r ∈ live_records.filter (fun r => matches_record r policy.rule) :=
            List.mem_filter.mpr ⟨hr, hb⟩
          rw [hfil] at hmem
          exact absurd hmem (List.not_mem_nil r)
        · exact hb
      · rw [hfil] at hnone
        exact absurd hnone (by simp)
    · intro hall
      have hfil : live_records.filter (fun r => matches_record r policy.rule) = [] := by
        rcases hf : live_records.filter (fun r => matches_record r policy.rule)
          with _ | ⟨m0, ms⟩
        · rfl
        · exfalso
          have hmem : m0 ∈ live_records.filter (fun r => matches_record r policy.rule) := by
            rw [hf]
            exact List.mem_cons_self m0 ms
          obtain ⟨hm0, hmm⟩ := List.mem_filter.mp hmem
          rw [hall m0 hm0] at hmm
          exact absurd hmm (by simp)
      rw [hfil]
  · rintro ⟨r, hr, hm⟩
    have hmem : r ∈ live_records.filter (fun r => matches_record r policy.rule) :=
      List.mem_filter.mpr ⟨hr, hm⟩
    rcases hfil : live_records.filter (fun r => matches_record r policy.rule)
      with _ | ⟨m0, ms⟩
    · rw [hfil] at hmem
      exact absurd hmem (List.not_mem_nil r)
    · exact ⟨forbiddenRecordFinding policy m0, rfl, rfl, rfl, rfl⟩

/-- C4 (witness): a forbidden sendgrid CNAME present in the live records
produces a finding that is not auto-healable even though the policy itself
carries `auto_heal = true` and a heal action. -/
theorem c4_witness :
    ∃ f, _check_record_policy exForbiddenPolicy [exCnameRecord] = some f ∧
      f.ftype = "forbidden_record_present" ∧ f.auto_heal = false ∧
      f.heal_action = none :=
  (c4_record_forbidden exForbiddenPolicy [exCnameRecord] rfl).2
    ⟨exCnameRecord, List.mem_singleton.mpr rfl, by decide⟩

/-- On a record selected by the `record_value_match` target filter, the full
rule predicate reduces to the value predicate (type and name are already
known to match). -/
theorem matches_record_on_target (r : DnsRecord) (rule : Rule)
    (h : targetPred rule r = true) :
    matches_record r rule = valuePredicate r rule := by
  have hand : (upperStr r.type == upperStr (rule.type.getD "")) = true
      ∧ _rec_name_matches_rule r.name (rule.name.getD "") = true := by
    have h2 := h
    unfold targetPred at h2
    rw [Bool.and_eq_true] at h2
    exact h2
  obtain ⟨ht, hn⟩ := hand
  unfold matches_record
  have h1 : (match rule.type with
      | some t => upperStr r.type == upperStr t
      | none => true) = true := by
    cases htyp : rule.type with
    | none => rfl
    | some t =>
      rw [htyp] at ht
      simpa using ht
  have h2 : (match rule.name with
      | some n => _rec_name_matches_rule r.name n
      | none => true) = true := by
    cases hname : rule.name with
    | none => rfl
    | some n =>
      rw [hname] at hn
      simpa using hn
  rw [h1, h2]
  simp

/-- C5: for a `record_value_match` policy — when no live record passes the
(type, name) target filter, a `record_value_mismatch` finding with
`actual = none` is returned; when target records exist, the check passes iff
at least one of them satisfies the value predicate, and otherwise the finding
labels `record_value_mismatch` with `actual` the first target record. -/
theorem c5_record_value_match (policy : Policy) (live_records : List DnsRecord)
    (h : policy.rule_type = "record_value_match") :
    (live_records.filter (targetPred policy.rule) = [] →
      ∃ f, _check_record_policy policy live_records = some f ∧
        f.ftype = "record_value_mismatch" ∧ f.actual = none ∧
        f.auto_heal = policy.auto_heal ∧ f.heal_action = policy.heal_action) ∧
    (∀ t0 ts, live_records.filter (targetPred policy.rule) = t0 :: ts →
      ((_check_record_policy policy live_records = none ↔
         ∃ r ∈ live_records.filter (targetPred policy.rule),
           valuePredicate r policy.rule = true) ∧
       ((∀ r ∈ live_records.filter (targetPred policy.rule),
           valuePredicate r policy.rule = false) →
         ∃ f, _check_record_policy policy live_records = some f ∧
           f.ftype = "record_value_mismatch" ∧ f.actual = some t0))) := by
  rw [check_value_reduce policy live_records h]
  constructor
  · intro hfil
    rw [hfil]
    exact ⟨valueMissingFinding policy, rfl, rfl, rfl, rfl, rfl⟩
  · intro t0 ts hfil
    have hmix : ∀ r ∈ t0 :: ts,
        matches_record r policy.rule = valuePredicate r policy.rule := by
      intro r hr
      apply matches_record_on_target
      have hmem : r ∈ live_records.filter (targetPred policy.rule) := by
        rw [hfil]
        exact hr
      exact (List.mem_filter.mp hmem).2
    rw [hfil]
    constructor
    · constructor
      · intro hnone
        cases hany : (t0 :: ts).any (fun r => matches_record r policy.rule) with
        | false =>
          rw [show (match t0 :: ts with
              | [] => some (valueMissingFinding policy)
              | t0 :: _ =>
                if (t0 :: ts).any (fun r => matches_record r policy.rule) = true
                then none else some (valueMismatchFinding policy t0))
            = (if (t0 :: ts).any (fun r => matches_record r policy.rule) = true
               then none else some (valueMismatchFinding policy t0)) from rfl,
            hany] at hnone
          exact absurd hnone (by simp)
        | true =>
          obtain ⟨r, hr, hm⟩ := List.any_eq_true.mp hany
          exact ⟨r, hr, (hmix r hr) ▸ hm⟩
      · rintro ⟨r, hr, hv⟩
        have hany : (t0 :: ts).any (fun r => matches_record r policy.rule) = true :=
          List.any_eq_true.mpr ⟨r, hr, (hmix r hr).symm ▸ hv⟩
        show (if (t0 :: ts).any (fun r => matches_record r policy.rule) = true
            then none else some (valueMismatchFinding policy t0)) = none
        rw [hany]
        rfl
    · intro hall
      have hany : (t0 :: ts).any (fun r => matches_record r policy.rule) = false :=
        any_eq_false_of_forall _ _ (fun r hr => (hmix r hr).trans (hall r hr))
      show ∃ f, (if (t0 :: ts).any (fun r => matches_record r policy.rule) = true
          then none else some (valueMismatchFinding policy t0)) = some f
        ∧ f.ftype = "record_value_mismatch" ∧ f.actual = some t0
      rw [hany]
      exact ⟨valueMismatchFinding policy t0, rfl, rfl, rfl⟩

/-- C5 (witness): the specification's SPF example — a live apex TXT record
pointing at sendgrid fails the `include:google.com` value check and the
mismatch finding's `actual` is that record. -/
theorem c5_witness :
    ∃ f, _check_record_policy exSpfPolicy [exSpfRecord] = some f ∧
      f.ftype = "record_value_mismatch" ∧ f.actual = some exSpfRecord :=
  ((c5_record_value_match exSpfPolicy [exSpfRecord] rfl).2 exSpfRecord [] (by decide)).2
    (by decide)

/-! ## Claim C1 — the auto-heal safety classifier -/

/-- The single-record type test of `_is_safe_to_auto_heal`
(`record.get("type","") in ("TXT","CAA","CNAME")`), in claim terms. -/
theorem type_getD_ok_iff (o : Option String) :
    ((o.getD "" == "TXT" || o.getD "" == "CAA" || o.getD "" == "CNAME") = true) ↔
      ∃ t, o = some t ∧ (t = "TXT" ∨ t = "CAA" ∨ t = "CNAME") := by
  cases o with
  | none => simp
  | some t => simp [beq_iff_eq, or_assoc]

/-- The list-record type test of `_is_safe_to_auto_heal`
(`r.get("type") in ("TXT","CAA","CNAME")`), in claim terms. -/
theorem type_some_ok_iff (o : Option String) :
    ((o == some "TXT" || o == some "CAA" || o == some "CNAME") = true) ↔
      ∃ t, o = some t ∧ (t = "TXT" ∨ t = "CAA" ∨ t = "CNAME") := by
  cases o with
  | none => simp
  | some t => simp [beq_iff_eq, or_assoc]

/-- C1 (counterexample): the claim as stated requires the heal action to
prescribe **one or more** records; but on a finding whose `add` heal action
prescribes no record at all (neither `record` nor `records` key),
`_is_safe_to_auto_heal` still returns `True` — `all` over the empty default
list is vacuously true. -/
theorem c1_counterexample : ¬ claimC1Stated := by
  intro h
  have h2 := (h exEmptyAddFinding "omapex.com").2.2.mp (by decide)
  obtain ⟨_, _, ha, hha, _, hne, _⟩ := h2
  rw [show exEmptyAddFinding.heal_action = some { action := "add" : HealAction } from rfl]
    at hha
  obtain rfl := Option.some.inj hha
  exact hne rfl

/-- C1 (amended): `_is_safe_to_auto_heal` returns `True` exactly when the
domain is outside the audit-only set, the finding's `auto_heal` flag is set,
its heal action's verb is add/upsert/add_if_missing, and **every** record it
prescribes (possibly none — an empty prescription passes vacuously) has type
TXT, CAA or CNAME; in particular it returns `False` for every audit-only
domain, for every finding without the `auto_heal` flag, and for any other
action verb or record type. -/
theorem c1_is_safe_characterization (f : Finding) (domain : String) :
    _is_safe_to_auto_heal f domain = true ↔
      (AUDIT_ONLY_DOMAINS.contains domain = false ∧ f.auto_heal = true ∧
       ∃ ha, f.heal_action = some ha ∧
         (ha.action = "add" ∨ ha.action = "upsert" ∨ ha.action = "add_if_missing") ∧
         ∀ r ∈ prescribedRecords ha,
           ∃ t, r.type = some t ∧ (t = "TXT" ∨ t = "CAA" ∨ t = "CNAME")) := by
  unfold _is_safe_to_auto_heal
  cases hdom : AUDIT_ONLY_DOMAINS.contains domain with
  | true => simp
  | false =>
    cases hah : f.auto_heal with
    | false => simp
    | true =>
      simp only [Bool.not_true, Bool.false_eq_true, if_false]
      cases hha : f.heal_action with
      | none =>
        simp only [Option.getD_none]
        rw [show (({} : HealAction).action == "add" || ({} : HealAction).action == "upsert"
            || ({} : HealAction).action == "add_if_missing") = false from rfl]
        simp
      | some ha =>
        simp only [Option.getD_some, Option.some.injEq, exists_eq_left']
        cases hact : (ha.action == "add" || ha.action == "upsert"
            || ha.action == "add_if_missing") with
        | false =>
          simp only [Bool.false_eq_true, if_false]
          have hnact : ¬(ha.action = "add" ∨ ha.action = "upsert"
              ∨ ha.action = "add_if_missing") := by
            intro hor
            have hbeq : (ha.action == "add" || ha.action == "upsert"
                || ha.action == "add_if_missing") = true := by
              rcases hor with h1 | h1 | h1 <;> rw [h1] <;> rfl
            rw [hact] at hbeq
            exact absurd hbeq (by simp)
          constructor
          · intro hfalse
            exact absurd hfalse (by simp)
          · rintro ⟨_, _, hor, _⟩
            exact absurd hor hnact
        | true =>
          rw [if_pos rfl]
          have hyes : ha.action = "add" ∨ ha.action = "upsert"
              ∨ ha.action = "add_if_missing" := by
            rcases (Bool.or_eq_true _ _).mp hact with h1 | h1
            · rcases (Bool.or_eq_true _ _).mp h1 with h2 | h2
              · exact Or.inl (eq_of_beq h2)
              · exact Or.inr (Or.inl (eq_of_beq h2))
            · exact Or.inr (Or.inr (eq_of_beq h1))
          cases hrec : ha.record with
          | some record =>
            rw [show prescribedRecords ha = [record] from by
              unfold prescribedRecords
              rw [hrec]]
            constructor
            · intro htype
              refine ⟨trivial, trivial, hyes, ?_⟩
              intro r hr
              rw [List.mem_singleton.mp hr]
              exact (type_getD_ok_iff record.type).mp htype
            · rintro ⟨_, _, _, hall⟩
              exact (type_getD_ok_iff record.type).mpr
                (hall record (List.mem_singleton.mpr rfl))
          | none =>
            rw [show prescribedRecords ha = ha.records.getD [] from by
              unfold prescribedRecords
              rw [hrec]]
            constructor
            · intro hall
              refine ⟨trivial, trivial, hyes, ?_⟩
              intro r hr
              have hr2 := List.all_eq_true.mp
                (show (ha.records.getD []).all (fun r => r.type == some "TXT"
                  || r.type == some "CAA" || r.type == some "CNAME") = true from hall) r hr
              exact (type_some_ok_iff r.type).mp hr2
            · rintro ⟨_, _, _, hall⟩
              show (ha.records.getD []).all (fun r => r.type == some "TXT"
                || r.type == some "CAA" || r.type == some "CNAME") = true
              rw [List.all_eq_true]
              intro r hr
              exact (type_some_ok_iff r.type).mpr (hall r hr)

/-- C1 (witness): the amended characterization instantiated — a safe
TXT-adding finding is classified safe on a normal domain, and the same
finding is rejected on the audit-only domain. -/
theorem c1_witness :
    (_is_safe_to_auto_heal exSafeFinding "omapex.com" = true) ∧
    (_is_safe_to_auto_heal exSafeFinding "theomgroup.ai" = false) := by
  constructor
  · exact (c1_is_safe_characterization exSafeFinding "omapex.com").mpr
      ⟨by decide, by decide,
       ⟨{ action := "add"
          record := some { type := some "TXT", name := "_dmarc"
                           content := "v=DMARC1; p=quarantine" } }, rfl, Or.inl rfl,
        by
          intro r hr
          rw [List.mem_singleton.mp hr]
          exact ⟨"TXT", rfl, Or.inl rfl⟩⟩⟩
  · rcases Bool.eq_false_or_eq_true (_is_safe_to_auto_heal exSafeFinding "theomgroup.ai")
      with hb | hb
    · obtain ⟨habs, _⟩ := (c1_is_safe_characterization exSafeFinding "theomgroup.ai").mp hb
      exact absurd habs (by decide)
    · exact hb

/-! ## Claim C2 — the audit loop's per-finding branch -/

/-- An audit-only domain makes `_is_safe_to_auto_heal` false outright. -/
theorem is_safe_false_of_audit_only (f : Finding) (domain : String)
    (h : AUDIT_ONLY_DOMAINS.contains domain = true) :
    _is_safe_to_auto_heal f domain = false := by
  unfold _is_safe_to_auto_heal
  rw [h]
  rfl

/-- C2 (counterexample): the claim's "otherwise … queued for approval" branch
is wrong — with `fix_safe=false` and a finding that *is* safe to auto-heal
(auto_heal flag, `add` of a TXT record, normal domain), the code records the
finding without queueing anything, because the queue branch additionally
requires `not _is_safe_to_auto_heal(...)`. -/
theorem c2_counterexample : ¬ claimC2Stated := by
  intro h
  have h2 := h false (fun _ => true) "omapex.com" exSafeFinding
    (by
      rintro ⟨hfix, _⟩
      exact absurd hfix (by simp))
    (by decide) (by decide)
  exact absurd h2 (by decide)

/-- C2 (amended): in the audit loop, for every failing policy's finding —
a heal is counted exactly when `fix_safe` is set, the finding is safe, and
the applied heal succeeds; the finding is appended to the findings array
exactly when it is not successfully healed; it is queued for approval exactly
when it is *not* safe to auto-heal, its heal action carries a single `record`,
and the domain is not audit-only (independently of `fix_safe`); and on an
audit-only domain the finding is always only recorded — no heal, no queue. -/
theorem c2_audit_branch_characterization (fix_safe : Bool)
    (createOk : HealRecord → Bool) (domain : String) (f : Finding) :
    ((processPolicyFinding fix_safe createOk domain f).healedInc
      = (fix_safe && _is_safe_to_auto_heal f domain && healApplied createOk f)) ∧
    ((processPolicyFinding fix_safe createOk domain f).appended
      = !(processPolicyFinding fix_safe createOk domain f).healedInc) ∧
    ((processPolicyFinding fix_safe createOk domain f).queuedInc
      = (!(_is_safe_to_auto_heal f domain)
         && (f.heal_action.bind (fun ha => ha.record)).isSome
         && !(AUDIT_ONLY_DOMAINS.contains domain))) ∧
    (AUDIT_ONLY_DOMAINS.contains domain = true →
      processPolicyFinding fix_safe createOk domain f
        = { finding := f, appended := true, healedInc := false, queuedInc := false }) := by
  cases hsafe : _is_safe_to_auto_heal f domain with
  | true =>
    have hdomf : AUDIT_ONLY_DOMAINS.contains domain = false := by
      cases hdom : AUDIT_ONLY_DOMAINS.contains domain with
      | true =>
        rw [is_safe_false_of_audit_only f domain hdom] at hsafe
        exact absurd hsafe (by simp)
      | false => rfl
    cases hfix : fix_safe with
    | true =>
      cases happ : healApplied createOk f with
      | true =>
        refine ⟨?_, ?_, ?_, ?_⟩
        · simp [processPolicyFinding, hsafe, happ]
        · simp [processPolicyFinding, hsafe, happ]
        · simp [processPolicyFinding, hsafe, happ]
        · intro hdom2
          rw [hdomf] at hdom2
          exact absurd hdom2 (by simp)
      | false =>
        refine ⟨?_, ?_, ?_, ?_⟩
        · simp [processPolicyFinding, hsafe, happ]
        · simp [processPolicyFinding, hsafe, happ]
        · simp [processPolicyFinding, hsafe, happ]
        · intro hdom2
          rw [hdomf] at hdom2
          exact absurd hdom2 (by simp)
    | false =>
      refine ⟨?_, ?_, ?_, ?_⟩
      · simp [processPolicyFinding, hsafe]
      · simp [processPolicyFinding, hsafe]
      · simp [processPolicyFinding, hsafe]
      · intro hdom2
        rw [hdomf] at hdom2
        exact absurd hdom2 (by simp)
  | false =>
    cases hha : f.heal_action with
    | none =>
      refine ⟨?_, ?_, ?_, ?_⟩
      · simp [processPolicyFinding, hsafe, hha]
      · simp [processPolicyFinding, hsafe, hha]
      · simp [processPolicyFinding, hsafe, hha]
      · intro _
        simp [processPolicyFinding, hsafe, hha]
    | some ha =>
      cases hrec : ha.record with
      | none =>
        refine ⟨?_, ?_, ?_, ?_⟩
        · simp [processPolicyFinding, hsafe, hha, hrec]
        · simp [processPolicyFinding, hsafe, hha, hrec]
        · simp [processPolicyFinding, hsafe, hha, hrec]
        · intro _
          simp [processPolicyFinding, hsafe, hha, hrec]
      | some r =>
        cases hdom : AUDIT_ONLY_DOMAINS.contains domain with
        | true =>
          have hdomm : domain ∈ AUDIT_ONLY_DOMAINS := by simpa using hdom
          refine ⟨?_, ?_, ?_, ?_⟩
          · simp [processPolicyFinding, hsafe, hha, hrec, hdomm]
          · simp [processPolicyFinding, hsafe, hha, hrec, hdomm]
          · simp [processPolicyFinding, hsafe, hha, hrec, hdomm]
          · intro _
            simp [processPolicyFinding, hsafe, hha, hrec, hdomm]
        | false =>
          have hdomm : domain ∉ AUDIT_ONLY_DOMAINS := by simpa using hdom
          refine ⟨?_, ?_, ?_, ?_⟩
          · simp [processPolicyFinding, hsafe, hha, hrec, hdomm]
          · simp [processPolicyFinding, hsafe, hha, hrec, hdomm]
          · simp [processPolicyFinding, hsafe, hha, hrec, hdomm]
          · intro hdom2
            exact absurd hdom2 (by simp)

/-- C2 (witness): on the audit-only domain, even with `fix_safe = true` and a
heal-ready finding, the branch only records the finding. -/
theorem c2_witness :
    AUDIT_ONLY_DOMAINS.contains "theomgroup.ai" = true ∧
    processPolicyFinding true (fun _ => true) "theomgroup.ai" exSafeFinding
      = { finding := exSafeFinding, appended := true, healedInc := false,
          queuedInc := false } :=
  ⟨by decide,
   (c2_audit_branch_characterization true (fun _ => true) "theomgroup.ai"
     exSafeFinding).2.2.2 (by decide)⟩

/-! ## Claim C10 — healed findings are excluded from the persisted array -/

/-- C10: with `fix_safe=true`, a finding whose heal attempt applies is marked
`healed := true`, not appended to `all_findings` (so it is absent from the
audit-log row's findings array), and counted once in `healed`; a finding
whose heal attempt fails stays in the findings array uncounted.  The
audit-log summary's `total_findings` is the length of the persisted findings
array and `auto_healed` is the healed count, so healed findings are excluded
from `total_findings` and counted only in `auto_healed`. -/
theorem c10_healed_excluded :
    (∀ (createOk : HealRecord → Bool) (domain : String) (f : Finding),
      _is_safe_to_auto_heal f domain = true → healApplied createOk f = true →
      processPolicyFinding true createOk domain f
        = { finding := { f with healed := true }, appended := false,
            healedInc := true, queuedInc := false }) ∧
    (∀ (createOk : HealRecord → Bool) (domain : String) (f : Finding),
      _is_safe_to_auto_heal f domain = true → healApplied createOk f = false →
      processPolicyFinding true createOk domain f
        = { finding := f, appended := true, healedInc := false,
            queuedInc := false }) ∧
    (∀ (env : AuditEnv) (fix_safe : Bool) (configs : List DomainConfig),
      (auditSummary env fix_safe configs).total_findings
        = (auditRun env fix_safe configs).findings.length ∧
      (auditSummary env fix_safe configs).auto_healed
        = (auditRun env fix_safe configs).healedCount) := by
  refine ⟨?_, ?_, ?_⟩
  · intro createOk domain f hsafe happ
    unfold processPolicyFinding
    rw [hsafe, happ]
    rfl
  · intro createOk domain f hsafe happ
    unfold processPolicyFinding
    rw [hsafe, happ]
    rfl
  · intro env fix_safe configs
    exact ⟨rfl, rfl⟩

/-- C10 (witness): a safe TXT-adding finding whose Cloudflare create succeeds
is excluded from the array and counted as healed. -/
theorem c10_witness :
    processPolicyFinding true (fun _ => true) "omapex.com" exSafeFinding
      = { finding := { exSafeFinding with healed := true }, appended := false,
          healedInc := true, queuedInc := false } :=
  c10_healed_excluded.1 (fun _ => true) "omapex.com" exSafeFinding
    (by decide) (by decide)

/-! ## Claim C8 — per-domain isolation of Cloudflare fetch failures -/

/-- C8: when fetching live records for a domain fails, the audit contributes
exactly one finding for that domain — severity `critical`, type
`cloudflare_error` — evaluates no policies for it (no heals, no queue
entries), and the run over the remaining domains proceeds unchanged. -/
theorem c8_fetch_failure_isolated (env : AuditEnv) (fix_safe : Bool)
    (config : DomainConfig) (rest : List DomainConfig) (zone_id e : String)
    (hz : resolveZone env config = some zone_id)
    (hf : env.fetch zone_id = .error e) :
    (auditDomain env fix_safe config).findings
      = [cloudflareErrorFinding config.domain e] ∧
    (cloudflareErrorFinding config.domain e).severity = "critical" ∧
    (cloudflareErrorFinding config.domain e).ftype = "cloudflare_error" ∧
    (cloudflareErrorFinding config.domain e).domain = config.domain ∧
    (auditDomain env fix_safe config).healedCount = 0 ∧
    (auditDomain env fix_safe config).queuedCount = 0 ∧
    auditRun env fix_safe (config :: rest)
      = { findings := cloudflareErrorFinding config.domain e
            :: (auditRun env fix_safe rest).findings
          healedCount := (auditRun env fix_safe rest).healedCount
          queuedCount := (auditRun env fix_safe rest).queuedCount
          passedCount := (auditRun env fix_safe rest).passedCount } := by
  have hdom : auditDomain env fix_safe config
      = { findings := [cloudflareErrorFinding config.domain e]
          healedCount := 0, queuedCount := 0, passed := false } := by
    unfold auditDomain
    rw [hz]
    dsimp only
    rw [hf]
  refine ⟨by rw [hdom], rfl, rfl, rfl, by rw [hdom], by rw [hdom], ?_⟩
  show (let d := auditDomain env fix_safe config
        let r := auditRun env fix_safe rest
        ({ findings := d.findings ++ r.findings
           healedCount := d.healedCount + r.healedCount
           queuedCount := d.queuedCount + r.queuedCount
           passedCount := (if d.passed then 1 else 0) + r.passedCount } : RunResult)) = _
  rw [hdom]
  simp

/-- C8 (witness): a concrete two-domain run where the first domain's fetch
raises — it contributes only the critical `cloudflare_error` finding, and the
second domain is still audited. -/
theorem c8_witness :
    (auditDomain exAuditEnv false exConfigA).findings
      = [cloudflareErrorFinding "omapex.com" "HTTP 500"] ∧
    auditRun exAuditEnv false [exConfigA, exConfigB]
      = { findings := cloudflareErrorFinding "omapex.com" "HTTP 500"
            :: (auditRun exAuditEnv false [exConfigB]).findings
          healedCount := (auditRun exAuditEnv false [exConfigB]).healedCount
          queuedCount := (auditRun exAuditEnv false [exConfigB]).queuedCount
          passedCount := (auditRun exAuditEnv false [exConfigB]).passedCount } := by
  have h := c8_fetch_failure_isolated exAuditEnv false exConfigA [exConfigB]
    "z1" "HTTP 500" rfl rfl
  exact ⟨h.1, h.2.2.2.2.2.2⟩

/-! ## Claim C9 — atomicity of `dns_approve` on dispatch failure -/

/-- Shape of any `dns_approve` run on a pending item: either a successful
Cloudflare dispatch followed (in program order) by the change-log insert and
the status flip, or no persisted effect at all. -/
theorem handle_dns_approve_shape (env : ApproveEnv) (approval_id : String)
    (item : ApprovalItem) (hi : env.getItem approval_id = some item)
    (hp : item.status = "pending") :
    (∃ op, _handle_dns_approve env approval_id
      = ([.cfApplied op, .changeLogged item.domain item.action,
          .statusSet approval_id "approved"], .applied)) ∨
    (_handle_dns_approve env approval_id).1 = [] := by
  unfold _handle_dns_approve
  rw [hi]
  dsimp only
  rw [show (item.status != "pending") = false from by rw [hp]; rfl]
  simp only [Bool.false_eq_true, if_false]
  split
  · exact Or.inr rfl
  · split
    · exact Or.inr rfl
    · split
      · exact Or.inr rfl
      · exact Or.inl ⟨_, rfl⟩

/-- C9: `dns_approve` is atomic on error — for a pending approval item, a
raising Cloudflare dispatch yields a failure response with **no** persisted
effects (status stays `pending`, no change-log row); the status flip to
`approved` and the change-log entry occur only within a trace whose first
effect is the successful Cloudflare apply. -/
theorem c9_approve_atomic_on_error (env : ApproveEnv) (approval_id : String)
    (item : ApprovalItem) (hi : env.getItem approval_id = some item)
    (hp : item.status = "pending") :
    (∀ e, (_handle_dns_approve env approval_id).2 = .failed e →
      (_handle_dns_approve env approval_id).1 = []) ∧
    (∀ a s, Effect.statusSet a s ∈ (_handle_dns_approve env approval_id).1 →
      (_handle_dns_approve env approval_id).2 = .applied ∧ s = "approved" ∧
      a = approval_id ∧
      ∃ op, (_handle_dns_approve env approval_id).1
        = [Effect.cfApplied op, Effect.changeLogged item.domain item.action,
           Effect.statusSet approval_id "approved"]) ∧
    (∀ dm ac, Effect.changeLogged dm ac ∈ (_handle_dns_approve env approval_id).1 →
      (_handle_dns_approve env approval_id).2 = .applied) := by
  rcases handle_dns_approve_shape env approval_id item hi hp with ⟨op, heq⟩ | hemp
  · refine ⟨?_, ?_, ?_⟩
    · intro e hfail
      rw [heq] at hfail
      exact absurd hfail (by simp)
    · intro a s hmem
      rw [heq] at hmem
      simp only [List.mem_cons, List.not_mem_nil, or_false] at hmem
      rcases hmem with h1 | h1 | h1
      · exact absurd h1 (by simp)
      · exact absurd h1 (by simp)
      · obtain ⟨ha, hs⟩ : a = approval_id ∧ s = "approved" := by
          injection h1 with h2 h3
          exact ⟨h2, h3⟩
        subst ha
        subst hs
        rw [heq]
        exact ⟨rfl, rfl, rfl, op, rfl⟩
    · intro dm ac hmem
      rw [heq]
  · refine ⟨?_, ?_, ?_⟩
    · intro e _
      exact hemp
    · intro a s hmem
      rw [hemp] at hmem
      exact absurd hmem (List.not_mem_nil _)
    · intro dm ac hmem
      rw [hemp] at hmem
      exact absurd hmem (List.not_mem_nil _)

/-- C9 (witness): concretely, with a pending create-approval whose Cloudflare
dispatch raises, the handler persists nothing. -/
theorem c9_witness : (_handle_dns_approve exApproveEnv "A1").1 = [] :=
  (c9_approve_atomic_on_error exApproveEnv "A1" exApprovalItem rfl rfl).1
    "Cloudflare API error 9109" rfl

end DnsSentinel
